import Mathlib

/-!
Shallow embedding of the Cloudflare R2 media-library module of sveltia-cms
(src/lib/services/assets/media-library.js, the paginated variant), covering
the AWS Signature V4 signer (`getSignedRequest`), credential parsing, the
paginated `search` listing pipeline, and the sequential `upload` loop.

Modelling conventions:
* JS strings are Lean `String`s; most character-level work happens on
  `List Char` via `String.data`.
* The Web Crypto primitives (SHA-256 and HMAC-SHA-256, reached through
  `crypto.subtle`) are platform code, not repository code; they are taken as
  an abstract `Crypto` structure parameter.  Everything the repository itself
  computes (hex encoding, key derivation order, canonical strings) is
  embedded concretely.
* JS objects used as string maps are association lists whose keys are
  assumed distinct where the source relies on object-key uniqueness.
* `Date` values are modelled by their millisecond timestamps (`Int`) and by
  the already-formatted ISO string fed to the signer.
-/

namespace R2

/-- UTF-8 encoding of a single character (byte values as `Nat`). -/
def utf8Bytes (c : Char) : List Nat :=
  let n := c.toNat
  if n < 128 then [n]
  else if n < 2048 then [192 + n / 64, 128 + n % 64]
  else if n < 65536 then [224 + n / 4096, 128 + n / 64 % 64, 128 + n % 64]
  else [240 + n / 262144, 128 + n / 4096 % 64, 128 + n / 64 % 64, 128 + n % 64]

/-- UTF-8 bytes of a string, as produced by `TextEncoder().encode` in the
source helpers `sha256` and `hmacSha256`. -/
def strBytes (s : String) : List Nat :=
  s.data.flatMap utf8Bytes

/-- Lowercase hexadecimal digit, as produced by `b.toString(16)` in JS. -/
def hexL (k : Nat) : Char :=
  if k < 10 then Char.ofNat (48 + k) else Char.ofNat (87 + k)

/-- Uppercase hexadecimal digit, as produced by
`b.toString(16).toUpperCase()` in JS. -/
def hexU (k : Nat) : Char :=
  if k < 10 then Char.ofNat (48 + k) else Char.ofNat (55 + k)

/-- Embeds `bufferToHex`: each byte rendered as two lowercase hex digits
(`b.toString(16).padStart(2, '0')`), concatenated. -/
def bufferToHex (bs : List Nat) : String :=
  String.mk (bs.flatMap fun b => [hexL (b / 16), hexL (b % 16)])

/-- The apostrophe character (code 39), written numerically. -/
def apos : Char := Char.ofNat 39

/-- ASCII letter test. -/
def isUriAlpha (c : Char) : Bool :=
  (65 ≤ c.toNat && c.toNat ≤ 90) || (97 ≤ c.toNat && c.toNat ≤ 122)

/-- ASCII digit test. -/
def isUriDigit (c : Char) : Bool :=
  48 ≤ c.toNat && c.toNat ≤ 57

/-- Characters left unescaped by ECMAScript `encodeURIComponent`:
letters, digits, and `- _ . ! ~ * ' ( )`. -/
def jsUnescaped (c : Char) : Bool :=
  isUriAlpha c || isUriDigit c ||
    (c == '-' || c == '_' || c == '.' || c == '!' || c == '~' ||
     c == '*' || c == apos || c == '(' || c == ')')

/-- Percent-encoding of a byte list with uppercase hex, e.g. `%2F`. -/
def pctBytes (bs : List Nat) : List Char :=
  bs.flatMap fun b => ['%', hexU (b / 16), hexU (b % 16)]

/-- One character of ECMAScript `encodeURIComponent` output (the platform
builtin used by the source): kept verbatim when in the unescaped set,
otherwise UTF-8 percent-encoded with uppercase hex. -/
def encodeURIComponentChar (c : Char) : List Char :=
  if jsUnescaped c then [c] else pctBytes (utf8Bytes c)

/-- Model of `encodeURIComponent`. -/
def encodeURIComponentStr (s : String) : String :=
  String.mk (s.data.flatMap encodeURIComponentChar)

/-- The five characters re-encoded by the source's
`.replace(/[!'()*]/g, c => ...)` step. -/
def isAwsExtra (c : Char) : Bool :=
  c == '!' || c == apos || c == '(' || c == ')' || c == '*'

/-- One character of the `replace` callback output:
`%${c.charCodeAt(0).toString(16).toUpperCase()}`. -/
def awsReplaceChar (c : Char) : List Char :=
  if isAwsExtra c then ['%', hexU (c.toNat / 16), hexU (c.toNat % 16)] else [c]

/-- The global char-class `replace(/[!'()*]/g, ...)` applied to a string. -/
def awsReplaceStr (s : String) : String :=
  String.mk (s.data.flatMap awsReplaceChar)

/-- The source's AWS query encoding: `encodeURIComponent` followed by the
re-encoding of `! ' ( ) *`. -/
def awsEncode (s : String) : String :=
  awsReplaceStr (encodeURIComponentStr s)

/-- RFC 3986 unreserved characters: letters, digits, `- . _ ~`.  Written
from the specification's words for the refinement comparison in C3. -/
def rfcUnreserved (c : Char) : Bool :=
  isUriAlpha c || isUriDigit c || (c == '-' || c == '.' || c == '_' || c == '~')

/-- Specification-side encoder (from the spec's words, not the source):
RFC 3986 percent-encoding with uppercase hex where every character outside
the unreserved set — in particular `! ' ( ) *` — is escaped. -/
def specAwsEncode (s : String) : String :=
  String.mk (s.data.flatMap fun c =>
    if rfcUnreserved c then [c] else pctBytes (utf8Bytes c))

/-- Stable ordered insertion used to model `Array.prototype.sort` (which is
stable per ECMAScript 2019): `a` goes in front of the first `b` with
`le a b`. -/
def orderedInsertBy (le : α → α → Bool) (a : α) : List α → List α
  | [] => [a]
  | b :: l => if le a b then a :: b :: l else b :: orderedInsertBy le a l

/-- Stable insertion sort modelling `Array.prototype.sort` with a consistent
comparator: `le a b` means the comparator result on `(a, b)` is `≤ 0`. -/
def insertionSortBy (le : α → α → Bool) : List α → List α
  | [] => []
  | a :: l => orderedInsertBy le a (insertionSortBy le l)

/-- Code-point lexicographic order on strings, modelling the default
comparator of `Array.prototype.sort` on the (ASCII) keys the source sorts. -/
def lexLe : List Char → List Char → Bool
  | [], _ => true
  | _ :: _, [] => false
  | a :: as, b :: bs =>
    if a.toNat < b.toNat then true
    else if b.toNat < a.toNat then false
    else lexLe as bs

/-- String comparison used by `Object.keys(..).sort()`. -/
def strLe (a b : String) : Bool :=
  lexLe a.data b.data

/-- ASCII model of `String.prototype.toLowerCase` (all keys and queries the
source lowercases are ASCII). -/
def toLowerChar (c : Char) : Char :=
  if 65 ≤ c.toNat && c.toNat ≤ 90 then Char.ofNat (c.toNat + 32) else c

/-- Model of `toLowerCase` on strings. -/
def strToLower (s : String) : String :=
  String.mk (s.data.map toLowerChar)

/-- The main members of the JS `\s` character class (space, tab, LF, VT,
FF, CR, NBSP); sufficient for the header values the source normalizes. -/
def jsWs (c : Char) : Bool :=
  c == ' ' || c == '\t' || c == '\n' || c == Char.ofNat 11 ||
    c == Char.ofNat 12 || c == '\r' || c == Char.ofNat 160

/-- Model of `String.prototype.trim`. -/
def jsTrim (l : List Char) : List Char :=
  ((l.dropWhile jsWs).reverse.dropWhile jsWs).reverse

/-- Collapses runs of spaces to a single space. -/
def squeezeSpaces : List Char → List Char
  | [] => []
  | [c] => [c]
  | a :: b :: r =>
    if a == ' ' && b == ' ' then squeezeSpaces (b :: r)
    else a :: squeezeSpaces (b :: r)

/-- Embeds `value.toString().trim().replace(/\s+/g, ' ')`: trim, then each
maximal whitespace run becomes a single space. -/
def collapseValue (s : String) : String :=
  String.mk (squeezeSpaces ((jsTrim s.data).map fun c => if jsWs c then ' ' else c))

/-- Model of `String.prototype.split` with a single-character separator. -/
def splitChar : List Char → Char → List (List Char)
  | [], _ => [[]]
  | c :: r, sep =>
    let rest := splitChar r sep
    if c == sep then [] :: rest
    else
      match rest with
      | g :: t => (c :: g) :: t
      | [] => [[c]]

/-- `apiKey.split(':')` and `fileName.split('.')` on strings. -/
def splitStr (s : String) (sep : Char) : List String :=
  (splitChar s.data sep).map String.mk

/-- List-prefix test (helper for substring search and `startsWith`). -/
def isPre : List Char → List Char → Bool
  | [], _ => true
  | _ :: _, [] => false
  | a :: p, b :: s => a == b && isPre p s

/-- Model of `String.prototype.includes` (substring test). -/
def hasSub : List Char → List Char → Bool
  | _, [] => true
  | [], _ :: _ => false
  | s :: r, p :: q => isPre (p :: q) (s :: r) || hasSub r (p :: q)

/-- `haystack.includes(needle)` on strings. -/
def strIncludes (hay needle : String) : Bool :=
  hasSub hay.data needle.data

/-- `s.startsWith(p)` on strings. -/
def strStartsWith (s p : String) : Bool :=
  isPre p.data s.data

/-- Removes the first occurrence of a nonempty pattern, scanning left to
right; identity when the pattern is absent. -/
def replFirstAux (pat : List Char) : List Char → List Char
  | [] => []
  | c :: r =>
    if isPre pat (c :: r) then (c :: r).drop pat.length
    else c :: replFirstAux pat r

/-- Model of `key.replace(prefixPath, '')` — JS string-pattern `replace`
removes only the FIRST occurrence, wherever it appears; with an empty
pattern it inserts nothing, i.e. is the identity. -/
def replFirst (s pat : String) : String :=
  if pat.data.isEmpty then s else String.mk (replFirstAux pat.data s.data)

/-- `key.endsWith('/')`. -/
def endsWithSlash (s : String) : Bool :=
  s.data.getLast? == some '/'

/-- Model of `.replace(/\/$/, '')`: drops one trailing slash if present. -/
def stripSlash (s : String) : String :=
  if endsWithSlash s then String.mk (s.data.dropLast) else s

/-- JS object spread `{...base, ...overlay}` for string maps with distinct
keys: overlay values win; key order is irrelevant downstream because every
consumer either sorts the keys or looks entries up by key. -/
def jsSpread (base overlay : List (String × String)) : List (String × String) :=
  base.filter (fun p => (overlay.lookup p.1).isNone) ++ overlay

/-- `obj[key]` with a default for the unreachable missing-key case. -/
def lookupD (l : List (String × String)) (k : String) : String :=
  (l.lookup k).getD ""

/-- Scan embedding of `iso.replace(/[:-]|\.\d{3}/g, '')`: removes colons and
hyphens, and a dot together with exactly three following digits. -/
def stripIsoAux : List Char → List Char
  | [] => []
  | c :: rest =>
    if c == ':' || c == '-' then stripIsoAux rest
    else if c == '.' then
      match rest with
      | a :: b :: d :: r =>
        if a.isDigit && b.isDigit && d.isDigit then stripIsoAux r
        else '.' :: stripIsoAux (a :: b :: d :: r)
      | other => '.' :: stripIsoAux other
    else c :: stripIsoAux rest
  termination_by l => l.length
  decreasing_by all_goals simp_arith

/-- `amzDate` from `date.toISOString()`; the `Date` object itself is
platform code, so the ISO string is the model's input. -/
def formatAmzDate (iso : String) : String :=
  String.mk (stripIsoAux iso.data)

/-- The Web Crypto primitives (`crypto.subtle.digest` / `.sign`): SHA-256 of
a byte sequence as a lowercase hex string, and HMAC-SHA-256 of key and
message byte sequences as raw bytes.  Abstract platform parameter. -/
structure Crypto where
  sha256hex : List Nat → String
  hmac : List Nat → List Nat → List Nat

/-- Embeds the source's `sha256` helper: UTF-8 encode, digest, hex. -/
def shaHex (c : Crypto) (m : String) : String :=
  c.sha256hex (strBytes m)

/-- Inputs of `getSignedRequest`, with the source's defaults; `dateIso`
stands for the `date = new Date()` argument (as its ISO string). -/
structure SignOptions where
  method : String
  region : String
  accessKeyId : String
  secretAccessKey : String
  accountId : String
  bucket : String
  path : String := ""
  headers : List (String × String) := []
  queryParams : List (String × String) := []
  service : String := "s3"
  dateIso : String
  payload : String := ""
  deriving Repr, DecidableEq

/-- The `{ url, headers }` record returned by `getSignedRequest`. -/
structure SignedRequest where
  url : String
  headers : List (String × String)
  deriving Repr, DecidableEq

/-- `Object.keys(..).sort()`. -/
def sortKeys (ks : List String) : List String :=
  insertionSortBy strLe ks

/-- `amzDate` inside `getSignedRequest`. -/
def amzDateOf (o : SignOptions) : String :=
  formatAmzDate o.dateIso

/-- `dateStamp = amzDate.substring(0, 8)`. -/
def dateStampOf (o : SignOptions) : String :=
  String.mk ((amzDateOf o).data.take 8)

/-- `canonicalURI`: path-style `/{bucket}/{path}`, or `/{bucket}/` with the
mandatory trailing slash when the path is empty. -/
def canonicalURIOf (o : SignOptions) : String :=
  if o.path ≠ "" then "/" ++ o.bucket ++ "/" ++ o.path else "/" ++ o.bucket ++ "/"

/-- `canonicalQueryString`: keys sorted, each key and value passed through
`encodeURIComponent` plus the `[!'()*]` re-encoding, joined `k=v` with `&`. -/
def canonicalQueryStringOf (qp : List (String × String)) : String :=
  String.intercalate "&"
    ((sortKeys (qp.map Prod.fst)).map fun k => awsEncode k ++ "=" ++ awsEncode (lookupD qp k))

/-- The mandatory `host` header value. -/
def hostOf (o : SignOptions) : String :=
  o.accountId ++ ".r2.cloudflarestorage.com"

/-- `payloadHash = await sha256(payload)`. -/
def payloadHashOf (c : Crypto) (o : SignOptions) : String :=
  shaHex c o.payload

/-- `allHeaders`: mandatory `host`, `x-amz-date`, `x-amz-content-sha256`
spread together with the caller's headers (caller wins on key clashes). -/
def allHeadersOf (c : Crypto) (o : SignOptions) : List (String × String) :=
  jsSpread
    [("host", hostOf o), ("x-amz-date", amzDateOf o),
     ("x-amz-content-sha256", payloadHashOf c o)]
    o.headers

/-- `canonicalHeaders`: keys sorted, each line
`lowercase(key):collapse(trim(value))\n`. -/
def canonicalHeadersOf (c : Crypto) (o : SignOptions) : String :=
  String.join ((sortKeys ((allHeadersOf c o).map Prod.fst)).map fun k =>
    strToLower k ++ ":" ++ collapseValue (lookupD (allHeadersOf c o) k) ++ "\n")

/-- `signedHeaders`: sorted keys, lowercased, joined with `;`. -/
def signedHeadersOf (c : Crypto) (o : SignOptions) : String :=
  String.intercalate ";" ((sortKeys ((allHeadersOf c o).map Prod.fst)).map strToLower)

/-- `canonicalRequest`: the six parts joined by newlines. -/
def canonicalRequestOf (c : Crypto) (o : SignOptions) : String :=
  String.intercalate "\n"
    [o.method, canonicalURIOf o, canonicalQueryStringOf o.queryParams,
     canonicalHeadersOf c o, signedHeadersOf c o, payloadHashOf c o]

/-- `credentialScope = dateStamp/region/service/aws4_request`. -/
def credentialScopeOf (o : SignOptions) : String :=
  dateStampOf o ++ "/" ++ o.region ++ "/" ++ o.service ++ "/aws4_request"

/-- `stringToSign`: algorithm, amzDate, scope, and the SHA-256 hex of the
canonical request, joined by newlines. -/
def stringToSignOf (c : Crypto) (o : SignOptions) : String :=
  String.intercalate "\n"
    ["AWS4-HMAC-SHA256", amzDateOf o, credentialScopeOf o,
     shaHex c (canonicalRequestOf c o)]

/-- `kSigning`: the four-stage HMAC chain; raw bytes of each stage feed the
next stage directly. -/
def signingKeyOf (c : Crypto) (o : SignOptions) : List Nat :=
  c.hmac
    (c.hmac
      (c.hmac
        (c.hmac (strBytes ("AWS4" ++ o.secretAccessKey)) (strBytes (dateStampOf o)))
        (strBytes o.region))
      (strBytes o.service))
    (strBytes "aws4_request")

/-- `signature = bufferToHex(hmacSha256(kSigning, stringToSign))`. -/
def signatureOf (c : Crypto) (o : SignOptions) : String :=
  bufferToHex (c.hmac (signingKeyOf c o) (strBytes (stringToSignOf c o)))

/-- The `Authorization` header value. -/
def authorizationOf (c : Crypto) (o : SignOptions) : String :=
  String.intercalate ", "
    ["AWS4-HMAC-SHA256 Credential=" ++ o.accessKeyId ++ "/" ++ credentialScopeOf o,
     "SignedHeaders=" ++ signedHeadersOf c o,
     "Signature=" ++ signatureOf c o]

/-- The final path-style URL with the canonical query string appended. -/
def urlOf (o : SignOptions) : String :=
  "https://" ++ o.accountId ++ ".r2.cloudflarestorage.com/" ++ o.bucket ++
    (if o.path ≠ "" then "/" ++ o.path else "/") ++
    (if canonicalQueryStringOf o.queryParams ≠ "" then
      "?" ++ canonicalQueryStringOf o.queryParams
    else "")

/-- `filteredHeaders`: `allHeaders` plus `Authorization`, dropping every
entry whose lowercased key is `host`. -/
def filteredHeadersOf (c : Crypto) (o : SignOptions) : List (String × String) :=
  (jsSpread (allHeadersOf c o) [("Authorization", authorizationOf c o)]).filter
    fun p => !(["host"].contains (strToLower p.1))

/-- Embeds `getSignedRequest`. -/
def getSignedRequest (c : Crypto) (o : SignOptions) : SignedRequest :=
  { url := urlOf o, headers := filteredHeadersOf c o }

/-- The `AssetKind` values assigned by the module. -/
inductive Kind where
  | image
  | video
  | audio
  | document
  | other
  deriving DecidableEq, Repr

/-- The `ExternalAsset` record; `lastModified` is the `Date` as epoch
milliseconds. -/
structure Asset where
  id : String
  description : String
  previewURL : String
  downloadURL : String
  fileName : String
  kind : Kind
  lastModified : Int
  size : Int
  deriving DecidableEq, Repr

/-- `fileName.split('.').pop()?.toLowerCase() || ''` — the extension used
for classification (`split` never yields an empty array, so `pop` is the
last piece; for a dot-free name that is the whole name). -/
def extensionOf (name : String) : String :=
  strToLower (((splitStr name '.').getLast?).getD "")

/-- The fixed extension table of the listing classifier. -/
def extKind (e : String) : Kind :=
  if ["jpg", "jpeg", "png", "gif", "webp", "svg"].contains e then Kind.image
  else if ["mp4", "webm", "mov"].contains e then Kind.video
  else if ["mp3", "wav", "ogg"].contains e then Kind.audio
  else if ["pdf", "doc", "docx", "txt"].contains e then Kind.document
  else Kind.other

/-- `fileKind` as computed in the listing pipeline. -/
def fileKindOf (name : String) : Kind :=
  extKind (extensionOf name)

/-- A collected `{ key, size, lastModified }` object; also used for the raw
`Contents` entries of a page, where `key = ""` models a missing or empty
`Key` element (both falsy in JS) and `size` / `lastModified` are the values
produced by the platform `parseInt` / `Date` parsers. -/
structure RawObj where
  key : String
  size : Int
  lastModified : Int
  deriving DecidableEq, Repr

/-- The asset record `assets.push({...})` builds for one collected object:
the prefix-stripped file name, the extension-derived kind, and the
preview/download URLs (preview empty for non-image kinds). -/
def mkListedAsset (r : RawObj) (prefPath urlBase : String) : Asset :=
  let fileName := replFirst r.key prefPath
  let k := fileKindOf fileName
  { id := r.key, description := fileName,
    previewURL := if k = Kind.image then urlBase ++ "/" ++ r.key else "",
    downloadURL := urlBase ++ "/" ++ r.key,
    fileName := fileName, kind := k,
    lastModified := r.lastModified, size := r.size }

/-- The asset records built from the collected objects, in listing order
(`allRawObjects.forEach` at media-library.js:1420-1454); an object is
skipped when a search filter is active and the lowercased file name does
not contain it. -/
def assetsOf (raws : List RawObj) (prefPath searchPref urlBase : String) : List Asset :=
  raws.filterMap fun r =>
    if searchPref ≠ "" && !(strIncludes (strToLower (replFirst r.key prefPath)) searchPref)
    then none
    else some (mkListedAsset r prefPath urlBase)

/-- The comparator `(a, b) => b.lastModified - a.lastModified` yields a
nonpositive number exactly when `b.lastModified ≤ a.lastModified`. -/
def assetLe (a b : Asset) : Bool :=
  decide (b.lastModified ≤ a.lastModified)

/-- `assets.sort((a, b) => ...)` — stable sort, newest first. -/
def sortAssets (l : List Asset) : List Asset :=
  insertionSortBy assetLe l

/-- The full post-listing pipeline of `search`: build assets in listing
order, then sort by `lastModified` descending. -/
def searchProcess (raws : List RawObj) (prefPath searchPref urlBase : String) : List Asset :=
  sortAssets (assetsOf raws prefPath searchPref urlBase)

/-- Runtime errors raised inside the listing `try` block: the reference
error for the unbound identifier `region`, or a transport failure. -/
inductive JsErr where
  | regionNotDefined
  | netFailure (msg : String)
  deriving DecidableEq, Repr

/-- Errors with which `search` / `upload` reject: the two credential
errors, and the fatal per-file upload error. -/
inductive RErr where
  | apiKeyRequired
  | invalidApiKeyFormat
  | uploadFailed (status : Int) (statusText : String)
  deriving DecidableEq, Repr

/-- Whether an error is a credential error (the spec's
`InvalidCredentials` taxonomy entry covers both source messages,
`API key is required` and `Invalid API key format`). -/
def isCredentialError : RErr → Bool
  | RErr.apiKeyRequired => true
  | RErr.invalidApiKeyFormat => true
  | _ => false

/-- `apiKey.split(':')`. -/
def apiKeyFields (apiKey : String) : List String :=
  splitStr apiKey ':'

/-- The guard `!accountId || !accessKeyId || !accessKeySecret ||
!bucketName` (negated): all of the first four fields are nonempty. -/
def credsOk (apiKey : String) : Bool :=
  let f := apiKeyFields apiKey
  !(f.getD 0 "" == "") && !(f.getD 1 "" == "") &&
    !(f.getD 2 "" == "") && !(f.getD 3 "" == "")

/-- The destructured credential fields. -/
structure Creds where
  accountId : String
  accessKeyId : String
  accessKeySecret : String
  bucketName : String
  bucketRegion : String
  configCustomDomain : String
  deriving DecidableEq, Repr

/-- Destructuring with defaults: `bucketRegion = 'auto'` and
`configCustomDomain = ''` apply only when the element is absent
(JS defaults fire on `undefined`, not on an empty string). -/
def parseFields (apiKey : String) : Creds :=
  let f := apiKeyFields apiKey
  { accountId := f.getD 0 "", accessKeyId := f.getD 1 "",
    accessKeySecret := f.getD 2 "", bucketName := f.getD 3 "",
    bucketRegion := f.getD 4 "auto", configCustomDomain := f.getD 5 "" }

/-- The optional settings object; `none` models an absent (undefined) key.
The field `pathPref` embeds the source's `pathPrefix` settings key. -/
structure JsSettings where
  publicPath : Option Bool := none
  customDomain : Option String := none
  pathPref : Option String := none
  deriving DecidableEq, Repr

/-- `customDomain = settings.customDomain || configCustomDomain || ''`
as a destructuring default. -/
def effCustomDomain (s : JsSettings) (cfg : String) : String :=
  s.customDomain.getD (if cfg ≠ "" then cfg else "")

/-- `pathPrefix = settings.pathPrefix || ''` as a destructuring default. -/
def effPathPref (s : JsSettings) : String :=
  s.pathPref.getD ""

/-- A parsed list-objects response page, as the loop body observes it:
`ok` and `status` from `fetch`, `contents` from the `Contents` elements,
`isTruncatedText` the text of `IsTruncated` (empty when the element is
missing, e.g. for malformed XML, where `DOMParser` yields an error document
with no such elements rather than throwing), and `nextTokenText` the text
of `NextContinuationToken` (`none` when missing). -/
structure ListPage where
  ok : Bool
  status : Int := 200
  contents : List RawObj := []
  isTruncatedText : String := ""
  nextTokenText : Option String := none
  deriving DecidableEq, Repr

/-- JS truthiness of the `continuationToken` variable (`null`/`undefined`
and the empty string are falsy). -/
def tokenTruthy : Option String → Bool
  | none => false
  | some s => !(s == "")

/-- `maxRequests` — the fixed pagination ceiling. -/
def maxRequests : Nat := 20

/-- The string-valued bindings visible at the signing call inside
`fetchAllObjects` (media-library.js:1340-1349): the destructured credential
fields and the local derived strings.  No binding in the module is named
`region` — the signing call's `region` shorthand is an unbound identifier. -/
def searchScopeOf (query apiKey : String) (cr : Creds)
    (customDomain pathPref searchPref prefPath baseUrl : String) :
    List (String × String) :=
  [("query", query), ("apiKey", apiKey),
   ("accountId", cr.accountId), ("accessKeyId", cr.accessKeyId),
   ("accessKeySecret", cr.accessKeySecret), ("bucketName", cr.bucketName),
   ("bucketRegion", cr.bucketRegion),
   ("configCustomDomain", cr.configCustomDomain),
   ("customDomain", customDomain), ("pathPrefix", pathPref),
   ("searchPrefix", searchPref), ("prefixPath", prefPath),
   ("baseUrl", baseUrl)]

/-- One `do`-iteration of `fetchAllObjects` followed by the
`while (continuationToken && requestCount < maxRequests)` check.  `count`
is the number of transport calls already made; evaluating the signing-call
arguments resolves the identifier `region` in the surrounding scope, which
fails with a `ReferenceError` before `fetch` is reached.  `fuel` bounds the
recursion and starts at `maxRequests`, so it never runs out before the
`while` condition stops the loop. -/
def fetchGo (c : Crypto) (isoAt : Nat → String) (scope : List (String × String))
    (cr : Creds) (prefPath : String)
    (tp : Nat → String → Except JsErr ListPage) :
    Nat → Option String → Nat → List RawObj → Except JsErr (List RawObj) × Nat
  | fuel, token, count, acc =>
    let qp :=
      [("list-type", "2"), ("max-keys", "1000")] ++
        (if prefPath ≠ "" then [("prefix", prefPath)] else []) ++
        (if tokenTruthy token then [("continuation-token", token.getD "")] else [])
    match scope.lookup "region" with
    | none => (Except.error JsErr.regionNotDefined, count)
    | some regionVal =>
      let sr := getSignedRequest c
        { method := "GET", region := regionVal, accessKeyId := cr.accessKeyId,
          secretAccessKey := cr.accessKeySecret, accountId := cr.accountId,
          bucket := cr.bucketName, path := "", queryParams := qp,
          dateIso := isoAt count }
      match tp count sr.url with
      | Except.error e => (Except.error e, count + 1)
      | Except.ok page =>
        if !page.ok then (Except.ok acc, count + 1)
        else
          let newObjs := page.contents.filter fun r =>
            !(r.key == "") && !(endsWithSlash r.key && r.size == 0)
          let acc' := acc ++ newObjs
          let token' := if page.isTruncatedText == "true" then page.nextTokenText else none
          if tokenTruthy token' && count + 1 < maxRequests then
            match fuel with
            | 0 => (Except.ok acc', count + 1)
            | fuel' + 1 => fetchGo c isoAt scope cr prefPath tp fuel' token' (count + 1) acc'
          else (Except.ok acc', count + 1)

/-- Embeds `fetchAllObjects`; the second component counts transport calls. -/
def fetchAllObjects (c : Crypto) (isoAt : Nat → String)
    (scope : List (String × String)) (cr : Creds) (prefPath : String)
    (tp : Nat → String → Except JsErr ListPage) :
    Except JsErr (List RawObj) × Nat :=
  fetchGo c isoAt scope cr prefPath tp maxRequests none 0 []

/-- Embeds the paginated `search` (media-library.js:1263-1474): credential
checks reject; the inner `try` turns any listing error into `[]`; otherwise
the collected objects are filtered, classified and sorted. -/
def searchFull (c : Crypto) (isoAt : Nat → String) (query apiKey : String)
    (s : JsSettings) (tp : Nat → String → Except JsErr ListPage) :
    Except RErr (List Asset) × Nat :=
  if apiKey == "" then (Except.error RErr.apiKeyRequired, 0)
  else if !(credsOk apiKey) then (Except.error RErr.invalidApiKeyFormat, 0)
  else
    let cr := parseFields apiKey
    let customDomain := effCustomDomain s cr.configCustomDomain
    let pathPref := effPathPref s
    let searchPref := if query ≠ "" then strToLower query else ""
    let prefPath := if pathPref ≠ "" then stripSlash pathPref ++ "/" else ""
    let baseUrl :=
      if customDomain ≠ "" then stripSlash customDomain
      else "https://" ++ cr.bucketName ++ "." ++ cr.accountId ++ ".r2.cloudflarestorage.com"
    let scope := searchScopeOf query apiKey cr customDomain pathPref searchPref prefPath baseUrl
    match fetchAllObjects c isoAt scope cr prefPath tp with
    | (Except.error _, n) => (Except.ok [], n)
    | (Except.ok raws, n) =>
      let urlBase := if customDomain ≠ "" then customDomain else baseUrl
      (Except.ok (searchProcess raws prefPath searchPref urlBase), n)

/-- A `File` as the upload path reads it. -/
structure FileRec where
  name : String
  type : String
  size : Int
  deriving DecidableEq, Repr

/-- A PUT response as `uploadFile` observes it. -/
structure PutResp where
  ok : Bool
  status : Int
  statusText : String
  deriving DecidableEq, Repr

/-- The record returned by `generateUploadURL`. -/
structure UploadDetails where
  uploadURL : String
  publicURL : String
  headers : List (String × String)
  deriving DecidableEq, Repr

/-- The upload details computed by `generateUploadURL` once the key has
parsed: a signed PUT for `{prefixPath}{fileName}` with the raw
`bucketRegion`, plus the public URL. -/
def genDetails (c : Crypto) (iso : String)
    (apiKey fileName contentType : String) (s : JsSettings) : UploadDetails :=
  let cr := parseFields apiKey
  let customDomain := effCustomDomain s cr.configCustomDomain
  let pathPref := effPathPref s
  let publicPath := s.publicPath.getD true
  let filePath := if pathPref ≠ "" then stripSlash pathPref ++ "/" ++ fileName else fileName
  let sr := getSignedRequest c
    { method := "PUT", region := cr.bucketRegion, accessKeyId := cr.accessKeyId,
      secretAccessKey := cr.accessKeySecret, accountId := cr.accountId,
      bucket := cr.bucketName, path := filePath,
      headers := [("Content-Type", contentType)], dateIso := iso }
  let baseUrl :=
    if customDomain ≠ "" then customDomain
    else "https://" ++ cr.bucketName ++ "." ++ cr.accountId ++ ".r2.cloudflarestorage.com"
  let publicURL := if publicPath then baseUrl ++ "/" ++ filePath else filePath
  { uploadURL := sr.url, publicURL := publicURL, headers := sr.headers }

/-- Embeds `generateUploadURL` (media-library.js:1138-1190): re-parses the
key (throwing `Invalid API key format` when malformed) and otherwise
returns the computed details. -/
def generateUploadURL (c : Crypto) (iso : String)
    (apiKey fileName contentType : String) (s : JsSettings) :
    Except RErr UploadDetails :=
  if !(credsOk apiKey) then Except.error RErr.invalidApiKeyFormat
  else Except.ok (genDetails c iso apiKey fileName contentType s)

/-- `kind` for a synthesized upload record, derived from the declared
content type. -/
def kindFromContentType (ct : String) : Kind :=
  if strStartsWith ct "image/" then Kind.image
  else if strStartsWith ct "video/" then Kind.video
  else if strStartsWith ct "audio/" then Kind.audio
  else if strIncludes ct "pdf" then Kind.document
  else Kind.other

/-- The `ExternalAsset` record `upload` synthesizes for one uploaded file
from the known (not re-fetched) metadata. -/
def mkUploadAsset (nowMs : Int) (s : JsSettings) (d : UploadDetails)
    (f : FileRec) : Asset :=
  let pathPref := effPathPref s
  let prefPath := if pathPref ≠ "" then stripSlash pathPref ++ "/" else ""
  { id := f.name, description := f.name, previewURL := d.publicURL,
    downloadURL := d.publicURL, fileName := prefPath ++ f.name,
    kind := kindFromContentType f.type, lastModified := nowMs,
    size := f.size }

/-- The sequential `for (const file of files)` loop of `upload`
(media-library.js:1632-1675): for each file, sign, PUT via the transport
`tp` (indexed by the number of PUTs already issued), and on a non-2xx
response throw, aborting the rest; the second component logs the signed
upload URLs in request order. -/
def uploadGo (c : Crypto) (isoAt : Nat → String) (nowMs : Int)
    (apiKey : String) (s : JsSettings) (tp : Nat → PutResp) :
    List FileRec → Nat → List Asset → List String →
    Except RErr (List Asset) × List String
  | [], _, acc, log => (Except.ok acc, log)
  | f :: rest, idx, acc, log =>
    match generateUploadURL c (isoAt idx) apiKey f.name f.type s with
    | Except.error e => (Except.error e, log)
    | Except.ok d =>
      let _requestHeaders :=
        (jsSpread d.headers
          (if (d.headers.lookup "Content-Type").isSome then []
           else [("Content-Type", f.type)])).filter fun p => !(p.1 == "Host")
      let resp := tp idx
      let log' := log ++ [d.uploadURL]
      if !resp.ok then (Except.error (RErr.uploadFailed resp.status resp.statusText), log')
      else
        uploadGo c isoAt nowMs apiKey s tp rest (idx + 1)
          (acc ++ [mkUploadAsset nowMs s d f]) log'

/-- Embeds `upload` (media-library.js:1602-1682): credential checks reject
before any PUT; otherwise the sequential per-file loop runs, any error in
it rejecting the whole invocation. -/
def uploadFull (c : Crypto) (isoAt : Nat → String) (nowMs : Int)
    (files : List FileRec) (apiKey : String) (s : JsSettings)
    (tp : Nat → PutResp) : Except RErr (List Asset) × List String :=
  if apiKey == "" then (Except.error RErr.apiKeyRequired, [])
  else if !(credsOk apiKey) then (Except.error RErr.invalidApiKeyFormat, [])
  else uploadGo c isoAt nowMs apiKey s tp files 0 [] []

/-! Generic lemmas about the stable insertion sort. -/

theorem perm_orderedInsertBy (le : α → α → Bool) (a : α) :
    ∀ l : List α, List.Perm (orderedInsertBy le a l) (a :: l) := by
  intro l
  induction l with
  | nil => simp [orderedInsertBy]
  | cons b l ih =>
    unfold orderedInsertBy
    split
    · exact List.Perm.refl _
    · exact List.Perm.trans (List.Perm.cons b ih) (List.Perm.swap a b l)

theorem perm_insertionSortBy (le : α → α → Bool) :
    ∀ l : List α, List.Perm (insertionSortBy le l) l := by
  intro l
  induction l with
  | nil => simp [insertionSortBy]
  | cons a l ih =>
    exact List.Perm.trans (perm_orderedInsertBy le a _) (List.Perm.cons a ih)

theorem pairwise_orderedInsertBy (le : α → α → Bool)
    (htot : ∀ x y, (le x y || le y x) = true)
    (htr : ∀ x y z, le x y = true → le y z = true → le x z = true)
    (a : α) :
    ∀ l : List α, l.Pairwise (fun x y => le x y = true) →
      (orderedInsertBy le a l).Pairwise (fun x y => le x y = true) := by
  intro l
  induction l with
  | nil => intro _; simp [orderedInsertBy]
  | cons b l ih =>
    intro hp
    rcases List.pairwise_cons.mp hp with ⟨hb, hl⟩
    unfold orderedInsertBy
    split
    · rename_i hab
      refine List.pairwise_cons.mpr ⟨?_, hp⟩
      intro x hx
      rcases List.mem_cons.mp hx with rfl | hx
      · exact hab
      · exact htr a b x hab (hb x hx)
    · rename_i hab
      have hba : le b a = true := by
        have := htot a b
        rcases (Bool.or_eq_true _ _).mp this with h | h
        · exact absurd h hab
        · exact h
      refine List.pairwise_cons.mpr ⟨?_, ih hl⟩
      intro x hx
      have hx' := (perm_orderedInsertBy le a l).mem_iff.mp hx
      rcases List.mem_cons.mp hx' with rfl | hx'
      · exact hba
      · exact hb x hx'

theorem pairwise_insertionSortBy (le : α → α → Bool)
    (htot : ∀ x y, (le x y || le y x) = true)
    (htr : ∀ x y z, le x y = true → le y z = true → le x z = true) :
    ∀ l : List α, (insertionSortBy le l).Pairwise (fun x y => le x y = true) := by
  intro l
  induction l with
  | nil => simp [insertionSortBy]
  | cons a l ih =>
    exact pairwise_orderedInsertBy le htot htr a _ ih

theorem filter_orderedInsertBy_pos (le : α → α → Bool) (p : α → Bool) (a : α)
    (hpa : p a = true) (hcompat : ∀ b, le a b = false → p b = false) :
    ∀ l : List α, (orderedInsertBy le a l).filter p = a :: l.filter p := by
  intro l
  induction l with
  | nil => simp [orderedInsertBy, hpa]
  | cons b l ih =>
    unfold orderedInsertBy
    split
    · simp [List.filter, hpa]
    · rename_i hab
      have hpb : p b = false := hcompat b (Bool.eq_false_iff.mpr hab)
      simp only [List.filter, hpb, ih]

theorem filter_orderedInsertBy_neg (le : α → α → Bool) (p : α → Bool) (a : α)
    (hpa : p a = false) :
    ∀ l : List α, (orderedInsertBy le a l).filter p = l.filter p := by
  intro l
  induction l with
  | nil => simp [orderedInsertBy, hpa]
  | cons b l ih =>
    unfold orderedInsertBy
    split
    · simp [List.filter, hpa]
    · simp only [List.filter]
      cases p b <;> simp [ih]

theorem insertionSortBy_map (f : α → β) (le : β → β → Bool) :
    ∀ l : List α,
      insertionSortBy le (l.map f) =
        (insertionSortBy (fun x y => le (f x) (f y)) l).map f := by
  have hins : ∀ (a : α) (l : List α),
      orderedInsertBy le (f a) (l.map f) =
        (orderedInsertBy (fun x y => le (f x) (f y)) a l).map f := by
    intro a l
    induction l with
    | nil => simp [orderedInsertBy]
    | cons b l ih =>
      by_cases h : le (f a) (f b) = true
      · simp [orderedInsertBy, h]
      · simp [orderedInsertBy, h, ih]
  intro l
  induction l with
  | nil => simp [insertionSortBy]
  | cons a l ih =>
    unfold insertionSortBy
    simp only [List.map_cons, ih, hins]

/-! Facts about the lexicographic key order. -/

theorem lexLe_total : ∀ a b : List Char, (lexLe a b || lexLe b a) = true := by
  intro a
  induction a with
  | nil => intro b; simp [lexLe]
  | cons x xs ih =>
    intro b
    cases b with
    | nil => simp [lexLe]
    | cons y ys =>
      simp only [lexLe]
      by_cases h1 : x.toNat < y.toNat
      · simp [h1]
      · by_cases h2 : y.toNat < x.toNat
        · simp [h1, h2]
        · simp [h1, h2]
          exact (Bool.or_eq_true _ _).mp (ih ys)

theorem lexLe_trans :
    ∀ a b c : List Char, lexLe a b = true → lexLe b c = true → lexLe a c = true := by
  intro a
  induction a with
  | nil => intro b c _ _; simp [lexLe]
  | cons x xs ih =>
    intro b c hab hbc
    cases b with
    | nil => simp [lexLe] at hab
    | cons y ys =>
      cases c with
      | nil => simp [lexLe] at hbc
      | cons z zs =>
        simp only [lexLe] at hab hbc ⊢
        by_cases h1 : x.toNat < y.toNat
        · by_cases h2 : y.toNat < z.toNat
          · simp [show x.toNat < z.toNat from Nat.lt_trans h1 h2]
          · by_cases h2' : z.toNat < y.toNat
            · simp [h2, h2'] at hbc
            · have hyz : y.toNat = z.toNat := by omega
              simp [show x.toNat < z.toNat from hyz ▸ h1]
        · by_cases h1' : y.toNat < x.toNat
          · simp [h1, h1'] at hab
          · have hxy : x.toNat = y.toNat := by omega
            simp [h1, h1'] at hab
            by_cases h2 : y.toNat < z.toNat
            · simp [show x.toNat < z.toNat by omega]
            · by_cases h2' : z.toNat < y.toNat
              · simp [h2, h2'] at hbc
              · simp [h2, h2'] at hbc
                have hnz1 : ¬ x.toNat < z.toNat := by omega
                have hnz2 : ¬ z.toNat < x.toNat := by omega
                simp [hnz1, hnz2]
                exact ih ys zs hab hbc

theorem strLe_total : ∀ a b : String, (strLe a b || strLe b a) = true := by
  intro a b
  exact lexLe_total a.data b.data

theorem strLe_trans :
    ∀ a b c : String, strLe a b = true → strLe b c = true → strLe a c = true := by
  intro a b c
  exact lexLe_trans a.data b.data c.data

/-! Lookup lemmas for the association-list object model. -/

theorem lookup_filterKeys (q : String → Bool) (k : String) (hq : q k = true) :
    ∀ l : List (String × String), (l.filter fun p => q p.1).lookup k = l.lookup k := by
  intro l
  induction l with
  | nil => simp
  | cons p t ih =>
    by_cases hk : p.1 = k
    · subst hk
      simp [List.filter, hq, List.lookup, ih]
    · have hk' : ¬ k = p.1 := fun h => hk h.symm
      have hbeq : (k == p.1) = false := beq_eq_false_iff_ne.mpr hk'
      cases hqp : q p.1 <;>
        simp [List.filter, hqp, List.lookup, hbeq, ih]

theorem lookup_filterKeys_none (q : String → Bool) (k : String) (hq : q k = false) :
    ∀ l : List (String × String), (l.filter fun p => q p.1).lookup k = none := by
  intro l
  induction l with
  | nil => simp
  | cons p t ih =>
    by_cases hk : p.1 = k
    · subst hk
      simp [List.filter, hq, ih]
    · have hk' : ¬ k = p.1 := fun h => hk h.symm
      have hbeq : (k == p.1) = false := beq_eq_false_iff_ne.mpr hk'
      cases hqp : q p.1 <;>
        simp [List.filter, hqp, List.lookup, hbeq, ih]

theorem lookup_append (k : String) :
    ∀ l₁ l₂ : List (String × String),
      (l₁ ++ l₂).lookup k =
        (match l₁.lookup k with
         | some v => some v
         | none => l₂.lookup k) := by
  intro l₁ l₂
  induction l₁ with
  | nil => simp
  | cons p t ih =>
    by_cases hk : p.1 = k
    · subst hk
      simp [List.lookup]
    · have hk' : ¬ k = p.1 := fun h => hk h.symm
      have hbeq : (k == p.1) = false := beq_eq_false_iff_ne.mpr hk'
      simp [List.lookup, hbeq, ih]

theorem lookup_of_mem_nodup (k v : String) :
    ∀ l : List (String × String),
      (l.map Prod.fst).Nodup → (k, v) ∈ l → l.lookup k = some v := by
  intro l
  induction l with
  | nil => simp
  | cons p t ih =>
    intro hnd hm
    rw [List.map_cons] at hnd
    rcases List.nodup_cons.mp hnd with ⟨hp, ht⟩
    rcases List.mem_cons.mp hm with rfl | hm
    · simp [List.lookup]
    · have hk : ¬ k = p.1 := by
        intro h
        exact hp (h ▸ (List.mem_map.mpr ⟨(k, v), hm, rfl⟩))
      have hbeq : (k == p.1) = false := beq_eq_false_iff_ne.mpr hk
      simp [List.lookup, hbeq, ih ht hm]

theorem lookup_isSome_iff (k : String) :
    ∀ l : List (String × String), (l.lookup k).isSome ↔ k ∈ l.map Prod.fst := by
  intro l
  induction l with
  | nil => simp
  | cons p t ih =>
    by_cases hk : p.1 = k
    · subst hk
      simp [List.lookup]
    · have hk' : ¬ k = p.1 := fun h => hk h.symm
      have hbeq : (k == p.1) = false := beq_eq_false_iff_ne.mpr hk'
      simp [List.lookup, hbeq, ih, hk]
      exact fun h => absurd h hk'

theorem lookup_jsSpread_over (k v : String) (b ov : List (String × String))
    (h : ov.lookup k = some v) : (jsSpread b ov).lookup k = some v := by
  unfold jsSpread
  rw [lookup_append]
  rw [lookup_filterKeys_none (fun s => (ov.lookup s).isNone) k (by simp [h])]
  exact h

theorem lookup_jsSpread_none (k : String) (b ov : List (String × String))
    (h : ov.lookup k = none) : (jsSpread b ov).lookup k = b.lookup k := by
  unfold jsSpread
  rw [lookup_append]
  rw [lookup_filterKeys (fun s => (ov.lookup s).isNone) k (by simp [h])]
  cases hb : b.lookup k <;> simp [h]

/-! The AWS query encoding equals the specification's
RFC 3986 + `[!'()*]` encoder. -/

theorem char_toNat_lt (c : Char) : c.toNat < 1114112 := by
  have h : c.val.toNat < 55296 ∨ (57343 < c.val.toNat ∧ c.val.toNat < 1114112) := c.valid
  show c.val.toNat < 1114112
  omega

theorem utf8Bytes_lt (c : Char) : ∀ b ∈ utf8Bytes c, b < 256 := by
  intro b hb
  have hc := char_toNat_lt c
  by_cases h1 : c.toNat < 128
  · simp [utf8Bytes, h1] at hb
    omega
  · by_cases h2 : c.toNat < 2048
    · simp [utf8Bytes, h1, h2] at hb
      rcases hb with rfl | rfl <;> omega
    · by_cases h3 : c.toNat < 65536
      · simp [utf8Bytes, h1, h2, h3] at hb
        rcases hb with rfl | rfl | rfl <;> omega
      · simp [utf8Bytes, h1, h2, h3] at hb
        rcases hb with rfl | rfl | rfl | rfl <;> omega

theorem hexU_not_extra (k : Nat) (h : k < 16) : isAwsExtra (hexU k) = false := by
  interval_cases k <;> decide

theorem pct_extra_free :
    ∀ bs : List Nat, (∀ b ∈ bs, b < 256) →
      (pctBytes bs).flatMap awsReplaceChar = pctBytes bs := by
  intro bs
  induction bs with
  | nil => intro _; simp [pctBytes]
  | cons b t ih =>
    intro hlt
    have hb : b < 256 := hlt b (by simp)
    have h1 : isAwsExtra (hexU (b / 16)) = false := hexU_not_extra _ (by omega)
    have h2 : isAwsExtra (hexU (b % 16)) = false := hexU_not_extra _ (by omega)
    have hpct : isAwsExtra '%' = false := by decide
    simp only [pctBytes, List.flatMap_cons] at *
    simp [awsReplaceChar, h1, h2, hpct, ih fun x hx => hlt x (by simp [hx])]

theorem rfc_implies_js (c : Char) (h : rfcUnreserved c = true) : jsUnescaped c = true := by
  simp only [rfcUnreserved, Bool.or_eq_true, beq_iff_eq] at h
  simp only [jsUnescaped, Bool.or_eq_true, beq_iff_eq]
  tauto

theorem js_not_extra_rfc (c : Char) (hj : jsUnescaped c = true)
    (he : isAwsExtra c = false) : rfcUnreserved c = true := by
  simp only [jsUnescaped, Bool.or_eq_true, beq_iff_eq] at hj
  simp only [isAwsExtra, Bool.or_eq_false_iff, beq_eq_false_iff_ne, ne_eq] at he
  simp only [rfcUnreserved, Bool.or_eq_true, beq_iff_eq]
  tauto

theorem encChar_repl (c : Char) :
    (encodeURIComponentChar c).flatMap awsReplaceChar =
      (if rfcUnreserved c then [c] else pctBytes (utf8Bytes c)) := by
  by_cases hj : jsUnescaped c = true
  · by_cases he : isAwsExtra c = true
    · simp only [isAwsExtra, Bool.or_eq_true, beq_iff_eq] at he
      rcases he with ((((rfl | rfl) | rfl) | rfl) | rfl) <;> decide
    · have he' : isAwsExtra c = false := by
        cases h : isAwsExtra c
        · rfl
        · exact absurd h he
      have hr : rfcUnreserved c = true := js_not_extra_rfc c hj he'
      simp [encodeURIComponentChar, hj, awsReplaceChar, he', hr]
  · have hj' : jsUnescaped c = false := by
      cases h : jsUnescaped c
      · rfl
      · exact absurd h hj
    have hr : rfcUnreserved c = false := by
      cases h : rfcUnreserved c
      · rfl
      · exact absurd (rfc_implies_js c h) hj
    simp only [encodeURIComponentChar, hj', Bool.false_eq_true, if_false, hr]
    exact pct_extra_free (utf8Bytes c) (utf8Bytes_lt c)

/-! Concrete fixtures for closed evaluations and witnesses. -/

/-- A trivial crypto instance (the claims settled on concrete inputs do not
depend on actual digest values). -/
def cZero : Crypto := ⟨fun _ => "", fun _ _ => []⟩

/-- A fixed clock. -/
def isoA : Nat → String := fun _ => "2024-01-15T10:30:00.000Z"

/-- A listing page that always reports truncation with a continuation
token and one object. -/
def pageTrunc : ListPage :=
  { ok := true, contents := [⟨"a.jpg", 1, 5⟩], isTruncatedText := "true",
    nextTokenText := some "t" }

/-- A listing source that always answers `pageTrunc`. -/
def tpTrunc : Nat → String → Except JsErr ListPage := fun _ _ => Except.ok pageTrunc

/-- A listing source whose `fetch` always rejects. -/
def tpThrow : Nat → String → Except JsErr ListPage :=
  fun _ _ => Except.error (JsErr.netFailure "network down")

/-- A PUT transport that always succeeds. -/
def tpPutOk : Nat → PutResp := fun _ => ⟨true, 200, "OK"⟩

/-! Helper lemmas about the full `search` model. -/

theorem searchScope_region :
    ∀ q a cr cd pp sp ppx bu,
      (searchScopeOf q a cr cd pp sp ppx bu).lookup "region" = none :=
  fun _ _ _ _ _ _ _ _ => rfl

theorem fetchAllObjects_region (c : Crypto) (isoAt : Nat → String)
    (q a : String) (cr : Creds) (cd pp sp ppx bu prePath : String)
    (tp : Nat → String → Except JsErr ListPage) :
    fetchAllObjects c isoAt (searchScopeOf q a cr cd pp sp ppx bu) cr prePath tp =
      (Except.error JsErr.regionNotDefined, 0) := by
  unfold fetchAllObjects fetchGo
  rw [searchScope_region]

theorem credsOk_ne_empty (apiKey : String) (h : credsOk apiKey = true) :
    (apiKey == "") = false := by
  by_cases he : apiKey = ""
  · subst he
    have hf : credsOk "" = false := by decide
    simp [hf] at h
  · exact beq_eq_false_iff_ne.mpr he

theorem searchFull_eval (c : Crypto) (isoAt : Nat → String) (query apiKey : String)
    (s : JsSettings) (tp : Nat → String → Except JsErr ListPage)
    (h : credsOk apiKey = true) :
    searchFull c isoAt query apiKey s tp = (Except.ok [], 0) := by
  have h0 := credsOk_ne_empty apiKey h
  simp only [searchFull, h0, h, Bool.not_true, Bool.false_eq_true, if_false]
  rw [fetchAllObjects_region]

theorem searchFull_creds_fail (c : Crypto) (isoAt : Nat → String)
    (query apiKey : String) (s : JsSettings)
    (tp : Nat → String → Except JsErr ListPage) (h : credsOk apiKey = false) :
    ∃ e, searchFull c isoAt query apiKey s tp = (Except.error e, 0) ∧
      isCredentialError e = true := by
  by_cases he : apiKey = ""
  · subst he
    exact ⟨RErr.apiKeyRequired, rfl, rfl⟩
  · have h0 : (apiKey == "") = false := beq_eq_false_iff_ne.mpr he
    refine ⟨RErr.invalidApiKeyFormat, ?_, rfl⟩
    simp [searchFull, h0, h]

theorem uploadFull_creds_fail (c : Crypto) (isoAt : Nat → String) (nowMs : Int)
    (files : List FileRec) (apiKey : String) (s : JsSettings) (tp : Nat → PutResp)
    (h : credsOk apiKey = false) :
    ∃ e, uploadFull c isoAt nowMs files apiKey s tp = (Except.error e, []) ∧
      isCredentialError e = true := by
  by_cases he : apiKey = ""
  · subst he
    exact ⟨RErr.apiKeyRequired, rfl, rfl⟩
  · have h0 : (apiKey == "") = false := beq_eq_false_iff_ne.mpr he
    refine ⟨RErr.invalidApiKeyFormat, ?_, rfl⟩
    simp [uploadFull, h0, h]

/-! Helper lemmas about the signer's output strings. -/

theorem stringToSignOf_eq (c : Crypto) (o : SignOptions) :
    stringToSignOf c o =
      "AWS4-HMAC-SHA256" ++ "\n" ++ amzDateOf o ++ "\n" ++ credentialScopeOf o ++
        "\n" ++ shaHex c (canonicalRequestOf c o) := by
  simp [stringToSignOf, String.intercalate, String.intercalate.go, String.append_assoc]

theorem authorizationOf_eq (c : Crypto) (o : SignOptions) :
    authorizationOf c o =
      "AWS4-HMAC-SHA256 Credential=" ++ o.accessKeyId ++ "/" ++ credentialScopeOf o ++
        ", SignedHeaders=" ++ signedHeadersOf c o ++ ", Signature=" ++ signatureOf c o := by
  have h1 : ∀ x : String, ", " ++ ("SignedHeaders=" ++ x) = ", SignedHeaders=" ++ x := by
    intro x
    rw [← String.append_assoc]
    rfl
  have h2 : ∀ x : String, ", " ++ ("Signature=" ++ x) = ", Signature=" ++ x := by
    intro x
    rw [← String.append_assoc]
    rfl
  simp [authorizationOf, String.intercalate, String.intercalate.go, String.append_assoc,
    h1, h2]

theorem lookup_authorization (c : Crypto) (o : SignOptions) :
    (getSignedRequest c o).headers.lookup "Authorization" =
      some (authorizationOf c o) := by
  show (filteredHeadersOf c o).lookup "Authorization" = _
  unfold filteredHeadersOf
  rw [lookup_filterKeys (fun s => !(["host"].contains (strToLower s))) "Authorization"
    (by decide)]
  exact lookup_jsSpread_over "Authorization" (authorizationOf c o) _ _ rfl

theorem awsEncode_eq_spec (s : String) : awsEncode s = specAwsEncode s := by
  show String.mk ((s.data.flatMap encodeURIComponentChar).flatMap awsReplaceChar) =
    String.mk (s.data.flatMap fun c => if rfcUnreserved c then [c] else pctBytes (utf8Bytes c))
  congr 1
  rw [List.flatMap_assoc]
  exact List.flatMap_congr fun c _ => encChar_repl c

/-! Claim theorems. -/

/-- C1: for every credential string with one of the first four
colon-delimited fields (accountId, accessKeyId, secretAccessKey, bucket)
missing, both `search` and `upload` reject with a credential error before
any transport call: the search model makes 0 transport calls and the
upload model's request log is empty. -/
theorem c1_invalid_credentials_reject (c : Crypto) (isoAt : Nat → String)
    (nowMs : Int) (query apiKey : String) (s : JsSettings)
    (tps : Nat → String → Except JsErr ListPage) (files : List FileRec)
    (tpu : Nat → PutResp) (h : credsOk apiKey = false) :
    (∃ e, searchFull c isoAt query apiKey s tps = (Except.error e, 0) ∧
      isCredentialError e = true) ∧
    (∃ e, uploadFull c isoAt nowMs files apiKey s tpu = (Except.error e, []) ∧
      isCredentialError e = true) :=
  ⟨searchFull_creds_fail c isoAt query apiKey s tps h,
   uploadFull_creds_fail c isoAt nowMs files apiKey s tpu h⟩

/-- Witness for C1 at the bucket-less credential string `a:b:c`. -/
theorem c1_witness :
    credsOk "a:b:c" = false ∧
      (∃ e, searchFull cZero isoA "q" "a:b:c" {} tpTrunc = (Except.error e, 0) ∧
        isCredentialError e = true) ∧
      (∃ e, uploadFull cZero isoA 0 [⟨"f.png", "image/png", 1⟩] "a:b:c" {} tpPutOk =
          (Except.error e, []) ∧ isCredentialError e = true) :=
  ⟨by decide,
   (c1_invalid_credentials_reject cZero isoA 0 "q" "a:b:c" {} tpTrunc
      [⟨"f.png", "image/png", 1⟩] tpPutOk (by decide)).1,
   (c1_invalid_credentials_reject cZero isoA 0 "q" "a:b:c" {} tpTrunc
      [⟨"f.png", "image/png", 1⟩] tpPutOk (by decide)).2⟩

/-- C2: for every signer input, the signature is the lowercase hex of
`HMAC(signingKey, stringToSign)` where the signing key is the raw-byte
four-stage chain `HMAC(HMAC(HMAC(HMAC("AWS4"+secret, dateStamp), region),
service), "aws4_request")` and `stringToSign` is `AWS4-HMAC-SHA256`, the
`amzDate`, the `dateStamp/region/service/aws4_request` scope, and the
SHA-256 hex of the canonical request joined by newlines; the Authorization
header is exactly `AWS4-HMAC-SHA256 Credential={accessKeyId}/{scope},
SignedHeaders={signedHeaders}, Signature={signature}` and is returned in
the signed request's header map. -/
theorem c2_signature_and_authorization (c : Crypto) (o : SignOptions) :
    signatureOf c o =
      bufferToHex (c.hmac
        (c.hmac
          (c.hmac
            (c.hmac (c.hmac (strBytes ("AWS4" ++ o.secretAccessKey))
                (strBytes (dateStampOf o)))
              (strBytes o.region))
            (strBytes o.service))
          (strBytes "aws4_request"))
        (strBytes ("AWS4-HMAC-SHA256" ++ "\n" ++ amzDateOf o ++ "\n" ++
          (dateStampOf o ++ "/" ++ o.region ++ "/" ++ o.service ++ "/aws4_request") ++
          "\n" ++ shaHex c (canonicalRequestOf c o)))) ∧
    authorizationOf c o =
      "AWS4-HMAC-SHA256 Credential=" ++ o.accessKeyId ++ "/" ++
        (dateStampOf o ++ "/" ++ o.region ++ "/" ++ o.service ++ "/aws4_request") ++
        ", SignedHeaders=" ++ signedHeadersOf c o ++ ", Signature=" ++ signatureOf c o ∧
    (getSignedRequest c o).headers.lookup "Authorization" =
      some (authorizationOf c o) := by
  refine ⟨?_, ?_, lookup_authorization c o⟩
  · unfold signatureOf signingKeyOf
    rw [stringToSignOf_eq]
    simp [credentialScopeOf, String.append_assoc]
  · rw [authorizationOf_eq]
    simp [credentialScopeOf, String.append_assoc]

/-- C5 evaluation at the failing input: with well-formed credentials and a
source that always reports truncation (with a continuation token and a
nonempty object list), `search` makes zero transport calls and resolves
with the empty list — the unbound `region` in the signing call aborts the
pagination loop before its first request, so no paging ever happens. -/
theorem c5_region_bug_blocks_pagination :
    pageTrunc.isTruncatedText = "true" ∧
    pageTrunc.nextTokenText = some "t" ∧
    pageTrunc.contents = [⟨"a.jpg", 1, 5⟩] ∧
    searchFull cZero isoA "" "acct:key:secret:bucket" {} tpTrunc =
      (Except.ok [], 0) :=
  ⟨rfl, rfl, rfl, rfl⟩

/-- C6: with well-formed credentials no listing failure of any kind is
surfaced as a rejection — `search` resolves with `[]` for every transport
behaviour (including one that always throws) — while credential-format
errors are surfaced as rejections. -/
theorem c6_listing_failures_degrade (c : Crypto) (isoAt : Nat → String)
    (query apiKey : String) (s : JsSettings) :
    (credsOk apiKey = true →
      ∀ tp, (searchFull c isoAt query apiKey s tp).1 = Except.ok []) ∧
    (credsOk apiKey = false →
      ∀ tp, ∃ e, (searchFull c isoAt query apiKey s tp).1 = Except.error e ∧
        isCredentialError e = true) := by
  constructor
  · intro h tp
    rw [searchFull_eval c isoAt query apiKey s tp h]
  · intro h tp
    rcases searchFull_creds_fail c isoAt query apiKey s tp h with ⟨e, he, hc⟩
    exact ⟨e, by rw [he], hc⟩

/-- Witness for C6: valid credentials with a throwing transport resolve to
`[]`; a malformed key is rejected. -/
theorem c6_witness :
    credsOk "acct:key:secret:bucket" = true ∧
      (searchFull cZero isoA "q" "acct:key:secret:bucket" {} tpThrow).1 =
        Except.ok [] :=
  ⟨by decide,
   (c6_listing_failures_degrade cZero isoA "q" "acct:key:secret:bucket" {}).1
     (by decide) tpThrow⟩

/-- C10: for every well-formed credential string and settings, `search`
resolves with the empty array after zero transport calls, whatever the
transport would answer: the identifier `region` is not bound anywhere in
the module scope visible at the signing call, so the first iteration of
the pagination loop fails with a reference error that the listing error
handler turns into `[]`. -/
theorem c10_search_always_empty (c : Crypto) (isoAt : Nat → String)
    (query apiKey : String) (s : JsSettings)
    (tp : Nat → String → Except JsErr ListPage) (h : credsOk apiKey = true) :
    searchFull c isoAt query apiKey s tp = (Except.ok [], 0) ∧
    (∀ q a cr cd pp sp ppx bu,
      (searchScopeOf q a cr cd pp sp ppx bu).lookup "region" = none) :=
  ⟨searchFull_eval c isoAt query apiKey s tp h, searchScope_region⟩

/-- Witness for C10 at a well-formed credential string with an
always-truncated source. -/
theorem c10_witness :
    credsOk "acct:key:secret:bucket" = true ∧
      searchFull cZero isoA "photo" "acct:key:secret:bucket" {} tpTrunc =
        (Except.ok [], 0) :=
  ⟨by decide,
   (c10_search_always_empty cZero isoA "photo" "acct:key:secret:bucket" {} tpTrunc
      (by decide)).1⟩

/-! Helper lemmas for the sort and classification claims. -/

theorem assetLe_total : ∀ a b : Asset, (assetLe a b || assetLe b a) = true := by
  intro a b
  simp [assetLe]
  omega

theorem assetLe_trans :
    ∀ a b c : Asset, assetLe a b = true → assetLe b c = true → assetLe a c = true := by
  intro a b c
  simp [assetLe]
  omega

theorem sortAssets_filter_time (t : Int) :
    ∀ l : List Asset,
      (sortAssets l).filter (fun a => a.lastModified == t) =
        l.filter (fun a => a.lastModified == t) := by
  intro l
  induction l with
  | nil => rfl
  | cons a l ih =>
    have ihu : (insertionSortBy assetLe l).filter (fun a => a.lastModified == t) =
        l.filter (fun a => a.lastModified == t) := ih
    show (orderedInsertBy assetLe a (insertionSortBy assetLe l)).filter _ = _
    by_cases hp : (a.lastModified == t) = true
    · rw [filter_orderedInsertBy_pos assetLe _ a hp ?_]
      · rw [ihu]
        simp [List.filter, hp]
      · intro b hb
        have ht : a.lastModified = t := by simpa using hp
        have hlt : ¬ b.lastModified ≤ a.lastModified := by simpa [assetLe] using hb
        have : b.lastModified ≠ t := by omega
        simpa using this
    · have hp' : (a.lastModified == t) = false := by
        cases h : (a.lastModified == t)
        · rfl
        · exact absurd h hp
      rw [filter_orderedInsertBy_neg assetLe _ a hp']
      rw [ihu]
      simp [List.filter, hp']

/-- C9: for every list of collected objects (and filter/URL parameters),
the processed `search` result is the asset list sorted by `lastModified`
descending; the order is total (a permutation of the assets built in
listing order) and stable (for each timestamp, the assets carrying it keep
their original listing order). -/
theorem c9_sorted_descending_stable (raws : List RawObj) (pp sp ub : String) :
    (searchProcess raws pp sp ub).Pairwise
      (fun a b => b.lastModified ≤ a.lastModified) ∧
    List.Perm (searchProcess raws pp sp ub) (assetsOf raws pp sp ub) ∧
    (∀ t : Int,
      (searchProcess raws pp sp ub).filter (fun a => a.lastModified == t) =
        (assetsOf raws pp sp ub).filter (fun a => a.lastModified == t)) := by
  refine ⟨?_, perm_insertionSortBy _ _, fun t => sortAssets_filter_time t _⟩
  have h := pairwise_insertionSortBy assetLe assetLe_total assetLe_trans
    (assetsOf raws pp sp ub)
  exact h.imp fun hx => by simpa [assetLe] using hx

/-- C8: every asset record produced by the `search` pipeline has its kind
computed from the file name alone through the fixed extension table; the
classification depends only on the extension, is total over the five
kinds, maps each table entry to its documented kind, and maps every
extension outside the table — e.g. `.xyz` — to `other`. -/
theorem c8_extension_classification (raws : List RawObj) (pp sp ub : String) :
    (∀ a ∈ searchProcess raws pp sp ub, a.kind = fileKindOf a.fileName) ∧
    (∀ n1 n2 : String, extensionOf n1 = extensionOf n2 →
      fileKindOf n1 = fileKindOf n2) ∧
    (∀ name : String, fileKindOf name = Kind.image ∨ fileKindOf name = Kind.video ∨
      fileKindOf name = Kind.audio ∨ fileKindOf name = Kind.document ∨
      fileKindOf name = Kind.other) ∧
    (extKind "jpg" = Kind.image ∧ extKind "jpeg" = Kind.image ∧
     extKind "png" = Kind.image ∧ extKind "gif" = Kind.image ∧
     extKind "webp" = Kind.image ∧ extKind "svg" = Kind.image ∧
     extKind "mp4" = Kind.video ∧ extKind "webm" = Kind.video ∧
     extKind "mov" = Kind.video ∧ extKind "mp3" = Kind.audio ∧
     extKind "wav" = Kind.audio ∧ extKind "ogg" = Kind.audio ∧
     extKind "pdf" = Kind.document ∧ extKind "doc" = Kind.document ∧
     extKind "docx" = Kind.document ∧ extKind "txt" = Kind.document) ∧
    (∀ e, e ∉ (["jpg", "jpeg", "png", "gif", "webp", "svg", "mp4", "webm", "mov",
        "mp3", "wav", "ogg", "pdf", "doc", "docx", "txt"] : List String) →
      extKind e = Kind.other) ∧
    fileKindOf "a.xyz" = Kind.other := by
  refine ⟨?_, ?_, ?_, by decide, ?_, by decide⟩
  · intro a ha
    have ha' := (perm_insertionSortBy assetLe (assetsOf raws pp sp ub)).mem_iff.mp ha
    rcases List.mem_filterMap.mp ha' with ⟨r, _, hbuild⟩
    split at hbuild
    · exact absurd hbuild (by simp)
    · have := Option.some.inj hbuild
      rw [← this]
      rfl
  · intro n1 n2 h
    unfold fileKindOf
    rw [h]
  · intro name
    cases h : fileKindOf name <;> simp [h]
  · intro e he
    simp only [List.mem_cons, not_or] at he
    unfold extKind
    rw [if_neg (by simp [List.contains]; tauto), if_neg (by simp [List.contains]; tauto),
      if_neg (by simp [List.contains]; tauto), if_neg (by simp [List.contains]; tauto)]

/-- Witness for C8: two names sharing the extension `jpg` (up to case)
classify identically. -/
theorem c8_witness :
    extensionOf "b.JPG" = extensionOf "a.jpg" ∧
    fileKindOf "b.JPG" = fileKindOf "a.jpg" :=
  ⟨by decide, (c8_extension_classification [] "" "" "").2.1 "b.JPG" "a.jpg" (by decide)⟩

/-! Helper recursions mirroring the upload loop for well-formed keys. -/

/-- The signed upload URLs of a batch, in batch order, starting at PUT
index `idx`. -/
def uploadUrls (c : Crypto) (isoAt : Nat → String) (apiKey : String)
    (s : JsSettings) : List FileRec → Nat → List String
  | [], _ => []
  | f :: rest, idx =>
    (genDetails c (isoAt idx) apiKey f.name f.type s).uploadURL ::
      uploadUrls c isoAt apiKey s rest (idx + 1)

/-- The synthesized asset records of a batch, in batch order. -/
def uploadAssets (c : Crypto) (isoAt : Nat → String) (nowMs : Int)
    (apiKey : String) (s : JsSettings) : List FileRec → Nat → List Asset
  | [], _ => []
  | f :: rest, idx =>
    mkUploadAsset nowMs s (genDetails c (isoAt idx) apiKey f.name f.type s) f ::
      uploadAssets c isoAt nowMs apiKey s rest (idx + 1)

theorem uploadUrls_length (c : Crypto) (isoAt : Nat → String) (apiKey : String)
    (s : JsSettings) :
    ∀ (files : List FileRec) (idx : Nat),
      (uploadUrls c isoAt apiKey s files idx).length = files.length := by
  intro files
  induction files with
  | nil => intro idx; rfl
  | cons f rest ih => intro idx; simp [uploadUrls, ih]

theorem uploadGo_ok (c : Crypto) (isoAt : Nat → String) (nowMs : Int)
    (apiKey : String) (s : JsSettings) (tp : Nat → PutResp)
    (hc : credsOk apiKey = true) :
    ∀ (files : List FileRec) (idx : Nat) (acc : List Asset) (log : List String),
      (∀ i, i < files.length → (tp (idx + i)).ok = true) →
      uploadGo c isoAt nowMs apiKey s tp files idx acc log =
        (Except.ok (acc ++ uploadAssets c isoAt nowMs apiKey s files idx),
         log ++ uploadUrls c isoAt apiKey s files idx) := by
  intro files
  induction files with
  | nil =>
    intro idx acc log _
    simp [uploadGo, uploadAssets, uploadUrls]
  | cons f rest ih =>
    intro idx acc log hok
    have hgen : generateUploadURL c (isoAt idx) apiKey f.name f.type s =
        Except.ok (genDetails c (isoAt idx) apiKey f.name f.type s) := by
      simp [generateUploadURL, hc]
    have h0 : (tp (idx + 0)).ok = true := hok 0 (by simp)
    rw [Nat.add_zero] at h0
    simp only [uploadGo, hgen, h0, Bool.not_true, Bool.false_eq_true, if_false]
    rw [ih (idx + 1) _ _ fun i hi => by
      have := hok (i + 1) (by simpa using Nat.succ_lt_succ hi)
      rwa [show idx + (i + 1) = idx + 1 + i by omega] at this]
    simp [uploadAssets, uploadUrls, List.append_assoc]

theorem uploadGo_fail (c : Crypto) (isoAt : Nat → String) (nowMs : Int)
    (apiKey : String) (s : JsSettings) (tp : Nat → PutResp)
    (hc : credsOk apiKey = true) :
    ∀ (files : List FileRec) (idx : Nat) (acc : List Asset) (log : List String)
      (j : Nat), j < files.length →
      (∀ i, i < j → (tp (idx + i)).ok = true) → (tp (idx + j)).ok = false →
      uploadGo c isoAt nowMs apiKey s tp files idx acc log =
        (Except.error
          (RErr.uploadFailed (tp (idx + j)).status (tp (idx + j)).statusText),
         log ++ uploadUrls c isoAt apiKey s (files.take (j + 1)) idx) := by
  intro files
  induction files with
  | nil =>
    intro idx acc log j hj
    exact absurd hj (by simp)
  | cons f rest ih =>
    intro idx acc log j hj hpre hfail
    have hgen : generateUploadURL c (isoAt idx) apiKey f.name f.type s =
        Except.ok (genDetails c (isoAt idx) apiKey f.name f.type s) := by
      simp [generateUploadURL, hc]
    cases j with
    | zero =>
      rw [Nat.add_zero] at hfail
      simp only [uploadGo, hgen, hfail, Bool.not_false, if_pos trivial, if_true]
      simp [uploadUrls, Nat.add_zero, hfail]
    | succ j' =>
      have h0 : (tp (idx + 0)).ok = true := hpre 0 (Nat.succ_pos j')
      rw [Nat.add_zero] at h0
      simp only [uploadGo, hgen, h0, Bool.not_true, Bool.false_eq_true, if_false]
      have hrec := ih (idx + 1) (acc ++ [mkUploadAsset nowMs s
          (genDetails c (isoAt idx) apiKey f.name f.type s) f])
        (log ++ [(genDetails c (isoAt idx) apiKey f.name f.type s).uploadURL]) j'
        (by simpa using Nat.lt_of_succ_lt_succ hj)
        (fun i hi => by
          have := hpre (i + 1) (Nat.succ_lt_succ hi)
          rwa [show idx + (i + 1) = idx + 1 + i by omega] at this)
        (by rwa [show idx + 1 + j' = idx + (j' + 1) by omega])
      rw [hrec]
      rw [show idx + 1 + j' = idx + (j' + 1) by omega]
      simp [uploadUrls, List.append_assoc, List.take]

/-- C7: with a well-formed key the signed PUTs run sequentially in batch
order — the request log is exactly the per-file signed URLs in order — and
the first non-2xx response rejects the whole invocation with the fatal
upload error for that file, after exactly `j + 1` PUTs (the remaining
files are aborted and no partial result is returned); when every PUT
succeeds the whole batch resolves in order. -/
theorem c7_upload_sequential_all_or_nothing (c : Crypto) (isoAt : Nat → String)
    (nowMs : Int) (files : List FileRec) (apiKey : String) (s : JsSettings)
    (tp : Nat → PutResp) (hc : credsOk apiKey = true) :
    ((∀ i, i < files.length → (tp i).ok = true) →
      uploadFull c isoAt nowMs files apiKey s tp =
        (Except.ok (uploadAssets c isoAt nowMs apiKey s files 0),
         uploadUrls c isoAt apiKey s files 0)) ∧
    (∀ j, j < files.length → (∀ i, i < j → (tp i).ok = true) →
      (tp j).ok = false →
      uploadFull c isoAt nowMs files apiKey s tp =
        (Except.error (RErr.uploadFailed (tp j).status (tp j).statusText),
         uploadUrls c isoAt apiKey s (files.take (j + 1)) 0) ∧
      (uploadUrls c isoAt apiKey s (files.take (j + 1)) 0).length = j + 1) := by
  have h0 := credsOk_ne_empty apiKey hc
  constructor
  · intro hok
    simp only [uploadFull, h0, hc, Bool.not_true, Bool.false_eq_true, if_false]
    rw [uploadGo_ok c isoAt nowMs apiKey s tp hc files 0 [] []
      fun i hi => by simpa using hok i hi]
    simp
  · intro j hj hpre hfail
    constructor
    · simp only [uploadFull, h0, hc, Bool.not_true, Bool.false_eq_true, if_false]
      rw [uploadGo_fail c isoAt nowMs apiKey s tp hc files 0 [] [] j hj
        (fun i hi => by simpa using hpre i hi) (by simpa using hfail)]
      simp
    · rw [uploadUrls_length, List.length_take]
      omega

/-- C3: the canonical query string lists the parameters sorted by key
(code-point order, proven sorted), with each key and value encoded by the
specification's RFC 3986 + uppercase-`[!'()*]` encoder; `{b: "2", a: "1"}`
canonicalizes to `a=1&b=2`; and the same string is both the third line of
the canonical request (the signing input) and the query suffix of the
final URL. -/
theorem c3_canonical_query_sorted_encoded (c : Crypto)
    (qp : List (String × String)) (hnd : (qp.map Prod.fst).Nodup) :
    canonicalQueryStringOf qp =
      String.intercalate "&"
        ((insertionSortBy (fun p q : String × String => strLe p.1 q.1) qp).map
          fun p => specAwsEncode p.1 ++ "=" ++ specAwsEncode p.2) ∧
    (sortKeys (qp.map Prod.fst)).Pairwise (fun a b => strLe a b = true) ∧
    canonicalQueryStringOf [("b", "2"), ("a", "1")] = "a=1&b=2" ∧
    (∀ o : SignOptions, o.queryParams = qp → canonicalQueryStringOf qp ≠ "" →
      (getSignedRequest c o).url =
        "https://" ++ o.accountId ++ ".r2.cloudflarestorage.com/" ++ o.bucket ++
          (if o.path ≠ "" then "/" ++ o.path else "/") ++
          ("?" ++ canonicalQueryStringOf qp) ∧
      canonicalRequestOf c o =
        String.intercalate "\n"
          [o.method, canonicalURIOf o, canonicalQueryStringOf qp,
           canonicalHeadersOf c o, signedHeadersOf c o, payloadHashOf c o]) := by
  refine ⟨?_, pairwise_insertionSortBy strLe strLe_total strLe_trans _, by decide, ?_⟩
  · unfold canonicalQueryStringOf sortKeys
    rw [insertionSortBy_map Prod.fst strLe qp, List.map_map]
    apply congrArg (String.intercalate "&")
    apply List.map_congr_left
    intro p hp
    obtain ⟨k, v⟩ := p
    have hpm : (k, v) ∈ qp :=
      (perm_insertionSortBy (fun x y : String × String => strLe x.1 y.1) qp).mem_iff.mp hp
    have hlk : qp.lookup k = some v := lookup_of_mem_nodup k v qp hnd hpm
    show awsEncode k ++ "=" ++ awsEncode (lookupD qp k) = _
    rw [awsEncode_eq_spec, awsEncode_eq_spec, lookupD, hlk]
    rfl
  · intro o ho hne
    subst ho
    constructor
    · show urlOf o = _
      unfold urlOf
      rw [if_pos hne]
    · rfl

/-- Witness for C3 at the two-parameter map supplied in reverse order. -/
theorem c3_witness :
    (([("b", "2"), ("a", "1")] : List (String × String)).map Prod.fst).Nodup ∧
    canonicalQueryStringOf [("b", "2"), ("a", "1")] = "a=1&b=2" :=
  ⟨by decide,
   (c3_canonical_query_sorted_encoded cZero [("b", "2"), ("a", "1")] (by decide)).2.2.1⟩

/-! C4 helper lemmas. -/

theorem lookup_host_filter (k : String) (hk : strToLower k ≠ "host")
    (l : List (String × String)) :
    (l.filter fun p => !(["host"].contains (strToLower p.1))).lookup k = l.lookup k :=
  lookup_filterKeys (fun s => !(["host"].contains (strToLower s))) k (by simp [hk]) l

theorem allHeaders_mandatory_isSome (c : Crypto) (o : SignOptions) (k : String)
    (hk : k = "host" ∨ k = "x-amz-date" ∨ k = "x-amz-content-sha256") :
    ((allHeadersOf c o).lookup k).isSome = true := by
  unfold allHeadersOf
  cases hov : o.headers.lookup k with
  | some v => rw [lookup_jsSpread_over k v _ _ hov]; rfl
  | none =>
    rw [lookup_jsSpread_none k _ _ hov]
    rcases hk with rfl | rfl | rfl <;> rfl

/-- The signer call used for the C4 counterexample: the caller supplies a
`host` header of its own. -/
def oHostX : SignOptions :=
  { method := "GET", region := "auto", accessKeyId := "AK", secretAccessKey := "SK",
    accountId := "acct", bucket := "bkt", headers := [("host", "example.com")],
    dateIso := "2024-01-15T10:30:00.000Z" }

/-- C4 counterexample: the claim that the returned header map contains
every caller-supplied header fails — a caller-supplied `host` header is
dropped by the host filter. -/
theorem c4_counterexample :
    (("host", "example.com") ∈ oHostX.headers) ∧
    (getSignedRequest cZero oHostX).headers.lookup "host" = none :=
  ⟨by decide, rfl⟩

/-- C4 as amended: the signer merges the caller's headers with the
mandatory `host`, `x-amz-date` and `x-amz-content-sha256`; the canonical
headers string is one `lowercase(key):collapsed(value)\n` line per header
with the keys sorted; the signed-headers list is the sorted key list,
lowercased and `;`-joined; and the returned header map excludes every
entry whose key lowercases to `host` while containing `Authorization`
(the computed value, which supersedes a caller-supplied `Authorization`),
`x-amz-date`, `x-amz-content-sha256`, and every other caller-supplied
header. -/
theorem c4_headers_canonicalization (c : Crypto) (o : SignOptions)
    (hnd : (o.headers.map Prod.fst).Nodup) :
    ((allHeadersOf c o).lookup "host").isSome = true ∧
    ((allHeadersOf c o).lookup "x-amz-date").isSome = true ∧
    ((allHeadersOf c o).lookup "x-amz-content-sha256").isSome = true ∧
    canonicalHeadersOf c o =
      String.join ((sortKeys ((allHeadersOf c o).map Prod.fst)).map fun k =>
        strToLower k ++ ":" ++ collapseValue (lookupD (allHeadersOf c o) k) ++ "\n") ∧
    (sortKeys ((allHeadersOf c o).map Prod.fst)).Pairwise
      (fun a b => strLe a b = true) ∧
    List.Perm (sortKeys ((allHeadersOf c o).map Prod.fst))
      ((allHeadersOf c o).map Prod.fst) ∧
    signedHeadersOf c o =
      String.intercalate ";"
        ((sortKeys ((allHeadersOf c o).map Prod.fst)).map strToLower) ∧
    (∀ kv ∈ (getSignedRequest c o).headers, strToLower kv.1 ≠ "host") ∧
    (getSignedRequest c o).headers.lookup "Authorization" =
      some (authorizationOf c o) ∧
    ((getSignedRequest c o).headers.lookup "x-amz-date").isSome = true ∧
    ((getSignedRequest c o).headers.lookup "x-amz-content-sha256").isSome = true ∧
    (∀ kv ∈ o.headers, strToLower kv.1 ≠ "host" → kv.1 ≠ "Authorization" →
      (getSignedRequest c o).headers.lookup kv.1 = some kv.2) := by
  refine ⟨allHeaders_mandatory_isSome c o _ (Or.inl rfl),
    allHeaders_mandatory_isSome c o _ (Or.inr (Or.inl rfl)),
    allHeaders_mandatory_isSome c o _ (Or.inr (Or.inr rfl)), rfl,
    pairwise_insertionSortBy strLe strLe_total strLe_trans _,
    perm_insertionSortBy strLe _, rfl, ?_, lookup_authorization c o, ?_, ?_, ?_⟩
  · intro kv hkv
    have hf := (List.mem_filter.mp hkv).2
    simpa using hf
  · show ((filteredHeadersOf c o).lookup "x-amz-date").isSome = true
    unfold filteredHeadersOf
    rw [lookup_host_filter "x-amz-date" (by decide)]
    rw [lookup_jsSpread_none "x-amz-date" (allHeadersOf c o)
      [("Authorization", authorizationOf c o)] rfl]
    exact allHeaders_mandatory_isSome c o _ (Or.inr (Or.inl rfl))
  · show ((filteredHeadersOf c o).lookup "x-amz-content-sha256").isSome = true
    unfold filteredHeadersOf
    rw [lookup_host_filter "x-amz-content-sha256" (by decide)]
    rw [lookup_jsSpread_none "x-amz-content-sha256" (allHeadersOf c o)
      [("Authorization", authorizationOf c o)] rfl]
    exact allHeaders_mandatory_isSome c o _ (Or.inr (Or.inr rfl))
  · intro kv hkv hhost hauth
    show (filteredHeadersOf c o).lookup kv.1 = some kv.2
    unfold filteredHeadersOf
    rw [lookup_host_filter kv.1 hhost]
    rw [lookup_jsSpread_none kv.1 _ _ (by
      have hb : (kv.1 == "Authorization") = false := beq_eq_false_iff_ne.mpr hauth
      simp [List.lookup, hb])]
    unfold allHeadersOf
    exact lookup_jsSpread_over kv.1 kv.2 _ _
      (lookup_of_mem_nodup kv.1 kv.2 o.headers hnd (by
        rw [show (kv.1, kv.2) = kv from rfl]
        exact hkv))

/-- A plain caller header map for the C4 witness. -/
def oCT : SignOptions :=
  { method := "PUT", region := "auto", accessKeyId := "AK", secretAccessKey := "SK",
    accountId := "acct", bucket := "bkt", path := "f.png",
    headers := [("Content-Type", "image/png")],
    dateIso := "2024-01-15T10:30:00.000Z" }

/-- Witness for C4's amended statement at a caller map with a
`Content-Type` header. -/
theorem c4_witness :
    ((oCT.headers.map Prod.fst).Nodup) ∧
    (getSignedRequest cZero oCT).headers.lookup "Authorization" =
      some (authorizationOf cZero oCT) :=
  ⟨by decide,
   (c4_headers_canonicalization cZero oCT (by decide)).2.2.2.2.2.2.2.2.1⟩

/-- A three-file batch for the C7 witness. -/
def files3 : List FileRec :=
  [⟨"a.png", "image/png", 1⟩, ⟨"b.txt", "text/plain", 2⟩, ⟨"c.mp3", "audio/mpeg", 3⟩]

/-- A PUT transport failing on the second request. -/
def tpFail1 : Nat → PutResp :=
  fun i => if i = 1 then ⟨false, 500, "ERR"⟩ else ⟨true, 200, "OK"⟩

/-- Witness for C7: the second PUT fails, the invocation rejects with the
fatal upload error, and only the first two PUTs were issued. -/
theorem c7_witness :
    credsOk "acct:key:secret:bucket" = true ∧
    uploadFull cZero isoA 7 files3 "acct:key:secret:bucket" {} tpFail1 =
      (Except.error (RErr.uploadFailed 500 "ERR"),
       uploadUrls cZero isoA "acct:key:secret:bucket" {} (files3.take 2) 0) :=
  ⟨by decide,
   ((c7_upload_sequential_all_or_nothing cZero isoA 7 files3 "acct:key:secret:bucket"
      {} tpFail1 (by decide)).2 1 (by decide)
      (fun i hi => by
        have hi0 : i = 0 := by omega
        subst hi0
        rfl)
      (by decide)).1⟩

end R2
